import Mathlib

/-!
# Verification of the tool-use orchestration loop of the RAG agent

This file is a shallow embedding, in Lean 4, of the conversation
orchestrator of the repository (`agent/agent.py` and `agent/tools.py`,
with the query layer of `database/db_manager.py`), together with proofs
about it.

Modelling conventions:

* Python/JSON values are modelled by the inductive type `JValue`
  (`None`/`null`, booleans, numbers, strings, lists, dicts).  A dict is an
  association list whose keys are unique in every value produced by the
  code.  Numbers are modelled as rationals (Python `int` and `float`
  collapse onto `Rat`; `1 == 1.0` holds in Python as well).
* `json.loads` (Python stdlib) is modelled by `parseJsonL`, an executable
  strict JSON parser with an explicit fuel argument (`fuel = 2·length + 2`
  always suffices, since every recursive call consumes input).  Known,
  irrelevant deviations from CPython: the non-standard literals
  `NaN`, `Infinity` and negative infinity are rejected, and `\uXXXX` surrogate pairs are
  decoded as two code points.
* The regular-expression scan `re.findall` with the raw pattern
  ```` ```json\s*([\s\S]*?)\s*``` ````
  is modelled by `extractRegions`: repeatedly find the leftmost occurrence
  of the opening fence, then the next closing fence, capture the region
  between them with surrounding whitespace stripped, and continue after
  the closing fence.  This is exactly the leftmost, non-greedy semantics
  of the pattern.  `\s` is modelled on the ASCII range.
* `json.dumps` is modelled by `dumpJV` (default separators `", "` and
  `": "`, `ensure_ascii` escaping on the basic multilingual plane; float
  formatting is approximated, no claim depends on it).
* The Ollama gateway (`_ollama_chat_completion`) is an external
  collaborator; per its contract a call either returns the assistant
  message content (a string) or raises.  A call outcome is therefore an
  `Except Unit String`, and `process_message` receives one outcome per
  completion phase.
* Capability handlers are arbitrary functions from a parameter dict to
  `Except String JValue` (`.error` models the handler raising).
* `datetime.now()` is modelled as a day number `now : Nat`;
  `(now − timedelta(days)).strftime("%Y-%m-%d")` is the day number
  `now - days`.  ISO `YYYY-MM-DD` strings compare lexicographically
  exactly as day numbers, so the SQL comparison
  `publication_date >= date_from` is day-number `≤` on the model.
* The MySQL query built by `db_manager.search_documents` is modelled
  relationally: each `WHERE` clause is a filter over an in-memory table,
  `LIKE "%x%"` is substring containment, `ORDER BY publication_date DESC`
  sorts with SQL `NULL`s last, `LIMIT`/`OFFSET` are `take`/`drop`.
-/

/-! ## JSON / Python values -/

inductive JValue where
  | null
  | bool (b : Bool)
  | num (q : Rat)
  | str (s : String)
  | arr (xs : List JValue)
  | obj (kvs : List (String × JValue))

/-- Python `d.get(key, dflt)` on a dict modelled as an association list. -/
def jgetD : List (String × JValue) → String → JValue → JValue
  | [], _, dflt => dflt
  | (k, v) :: rest, key, dflt => if k = key then v else jgetD rest key dflt

/-- Python `d.get(key)` (default `None`). -/
def jget (kvs : List (String × JValue)) (key : String) : JValue :=
  jgetD kvs key .null

/-- Python `key in d` for a dict. -/
def hasKeyJ : List (String × JValue) → String → Bool
  | [], _ => false
  | (k, _) :: rest, key => if k = key then true else hasKeyJ rest key

/-- Python truthiness (`bool(v)`) of a JSON-shaped value. -/
def pyTruthy : JValue → Bool
  | .null => false
  | .bool b => b
  | .num q => if q = 0 then false else true
  | .str s => if s = "" then false else true
  | .arr xs => match xs with | [] => false | _ :: _ => true
  | .obj kvs => match kvs with | [] => false | _ :: _ => true

/-- Python `str(v)`, as used by f-string interpolation.  Only the scalar
cases are ever reached by the embedded code (unhashable values raise
before being formatted); compound formatting is abbreviated. -/
def pyStr : JValue → String
  | .null => "None"
  | .bool true => "True"
  | .bool false => "False"
  | .num q => if q.den = 1 then toString q.num else toString q.num ++ "/" ++ toString q.den
  | .str s => s
  | .arr _ => "[...]"
  | .obj _ => "\x7b...\x7d"

/-- Python dict assignment `d[k] = v`: replace in place if the key exists,
otherwise append.  (`json.loads` resolves duplicate keys this way.) -/
def objUpd (kvs : List (String × JValue)) (k : String) (v : JValue) :
    List (String × JValue) :=
  if hasKeyJ kvs k then kvs.map (fun p => if p.1 = k then (k, v) else p)
  else kvs ++ [(k, v)]

/-! ## `json.loads` model -/

/-- JSON whitespace (RFC 8259 / CPython `json`). -/
def isJsonWs (c : Char) : Bool :=
  c = ' ' || c = '\t' || c = '\n' || c = '\r'

/-- Hexadecimal digit value. -/
def hexVal (c : Char) : Option Nat :=
  if 48 ≤ c.toNat ∧ c.toNat ≤ 57 then some (c.toNat - 48)
  else if 97 ≤ c.toNat ∧ c.toNat ≤ 102 then some (c.toNat - 87)
  else if 65 ≤ c.toNat ∧ c.toNat ≤ 70 then some (c.toNat - 55)
  else none

/-- Body of a JSON string after the opening quote: returns the decoded
characters and the input after the closing quote. -/
def pStrAux : List Char → List Char → Option (List Char × List Char)
  | _, [] => none
  | acc, c :: rest =>
    if c = '"' then some (acc.reverse, rest)
    else if c = '\\' then
      match rest with
      | [] => none
      | e :: rest2 =>
        if e = '"' then pStrAux ('"' :: acc) rest2
        else if e = '\\' then pStrAux ('\\' :: acc) rest2
        else if e = '/' then pStrAux ('/' :: acc) rest2
        else if e = 'b' then pStrAux ('\x08' :: acc) rest2
        else if e = 'f' then pStrAux ('\x0c' :: acc) rest2
        else if e = 'n' then pStrAux ('\n' :: acc) rest2
        else if e = 'r' then pStrAux ('\r' :: acc) rest2
        else if e = 't' then pStrAux ('\t' :: acc) rest2
        else if e = 'u' then
          match rest2 with
          | h1 :: h2 :: h3 :: h4 :: rest3 =>
            match hexVal h1, hexVal h2, hexVal h3, hexVal h4 with
            | some a, some b, some c2, some d =>
              pStrAux (Char.ofNat (a * 4096 + b * 256 + c2 * 16 + d) :: acc) rest3
            | _, _, _, _ => none
          | _ => none
        else none
    else if c.toNat < 32 then none
    else pStrAux (c :: acc) rest

/-- Decimal value of a digit list. -/
def digitsVal (cs : List Char) : Nat :=
  cs.foldl (fun acc c => acc * 10 + (c.toNat - 48)) 0

/-- Strict JSON number (sign, integer part without leading zeros,
optional fraction, optional exponent), as a rational. -/
def pNum (s : List Char) : Option (Rat × List Char) :=
  let signRest : Bool × List Char :=
    match s with
    | c :: rest => if c = '-' then (true, rest) else (false, s)
    | [] => (false, s)
  let neg := signRest.1
  let s1 := signRest.2
  let intDigits := s1.takeWhile Char.isDigit
  let s2 := s1.drop intDigits.length
  if intDigits.isEmpty then none
  else if intDigits.length > 1 ∧ intDigits.head? = some '0' then none
  else
    let fracPair : List Char × List Char :=
      match s2 with
      | '.' :: r => let fd := r.takeWhile Char.isDigit; (fd, r.drop fd.length)
      | _ => ([], s2)
    let fracDigits := fracPair.1
    let s3 := fracPair.2
    let fracBad : Bool := match s2 with
      | '.' :: _ => fracDigits.isEmpty
      | _ => false
    if fracBad then none
    else
      let expTriple : Int × List Char × Bool :=
        match s3 with
        | e :: r =>
          if e = 'e' ∨ e = 'E' then
            let signPair : Int × List Char :=
              match r with
              | c :: rr => if c = '+' then (1, rr) else if c = '-' then (-1, rr) else (1, r)
              | [] => (1, r)
            let ed := signPair.2.takeWhile Char.isDigit
            if ed.isEmpty then (0, s3, false)
            else (signPair.1 * (digitsVal ed : Int), signPair.2.drop ed.length, true)
          else (0, s3, true)
        | [] => (0, s3, true)
      if !expTriple.2.2 then none
      else
        let mantAbs : Int := (digitsVal (intDigits ++ fracDigits) : Int)
        let mant : Int := if neg then -mantAbs else mantAbs
        let e10 : Int := expTriple.1 - (fracDigits.length : Int)
        let q : Rat :=
          if 0 ≤ e10 then Rat.ofInt (mant * (10 : Int) ^ e10.toNat)
          else mkRat mant ((10 : Nat) ^ (-e10).toNat)
        some (q, expTriple.2.1)

/-- Prefix test on character lists. -/
def beginsWith : List Char → List Char → Bool
  | [], _ => true
  | _ :: _, [] => false
  | p :: ps, c :: cs => p = c && beginsWith ps cs

mutual

/-- Strict recursive-descent JSON value parser (models `json.loads`).
The fuel argument strictly decreases with every recursive call; every
call consumes at least one character, so `2·length + 2` fuel suffices. -/
def pJson : Nat → List Char → Option (JValue × List Char)
  | 0, _ => none
  | fuel + 1, s =>
    match s.dropWhile isJsonWs with
    | [] => none
    | c :: rest =>
      if c = 'n' then
        if beginsWith "ull".toList rest then some (.null, rest.drop 3) else none
      else if c = 't' then
        if beginsWith "rue".toList rest then some (.bool true, rest.drop 3) else none
      else if c = 'f' then
        if beginsWith "alse".toList rest then some (.bool false, rest.drop 4) else none
      else if c = '"' then
        (pStrAux [] rest).map (fun p => (.str (String.mk p.1), p.2))
      else if c = '[' then
        match rest.dropWhile isJsonWs with
        | ']' :: r2 => some (.arr [], r2)
        | _ => pArrItems fuel rest []
      else if c = '\x7b' then
        match rest.dropWhile isJsonWs with
        | '\x7d' :: r2 => some (.obj [], r2)
        | _ => pObjItems fuel rest []
      else if c = '-' ∨ c.isDigit then
        (pNum (c :: rest)).map (fun p => (.num p.1, p.2))
      else none

/-- Comma-separated array items up to `]`. -/
def pArrItems : Nat → List Char → List JValue → Option (JValue × List Char)
  | 0, _, _ => none
  | fuel + 1, s, acc =>
    match pJson fuel s with
    | none => none
    | some (v, r) =>
      match r.dropWhile isJsonWs with
      | ',' :: r2 => pArrItems fuel r2 (acc ++ [v])
      | ']' :: r2 => some (.arr (acc ++ [v]), r2)
      | _ => none

/-- Comma-separated `"key": value` pairs up to the closing brace. -/
def pObjItems : Nat → List Char → List (String × JValue) → Option (JValue × List Char)
  | 0, _, _ => none
  | fuel + 1, s, acc =>
    match s.dropWhile isJsonWs with
    | '"' :: r =>
      match pStrAux [] r with
      | none => none
      | some (kcs, r2) =>
        match r2.dropWhile isJsonWs with
        | ':' :: r3 =>
          match pJson fuel r3 with
          | none => none
          | some (v, r4) =>
            match r4.dropWhile isJsonWs with
            | ',' :: r5 => pObjItems fuel r5 (objUpd acc (String.mk kcs) v)
            | '\x7d' :: r5 => some (.obj (objUpd acc (String.mk kcs) v), r5)
            | _ => none
        | _ => none
    | _ => none

end

/-- Model of `json.loads` on a character list: parse one value, then require only
whitespace to remain; `none` models `json.JSONDecodeError`. -/
def parseJsonL (cs : List Char) : Option JValue :=
  match pJson (2 * cs.length + 2) cs with
  | some (v, rest) => if rest.dropWhile isJsonWs = [] then some v else none
  | none => none

/-! ## The fenced-block scan (the `re.findall` pass of `_extract_tool_calls`) -/

/-- The backtick character (U+0060). -/
def btChar : Char := Char.ofNat 96

/-- Characters matched by the regex class `\s` (ASCII range). -/
def isReWs (c : Char) : Bool :=
  c = ' ' || c = '\t' || c = '\n' || c = '\r' || c = '\x0b' || c = '\x0c'

/-- Strip leading and trailing `\s` characters (the effect of the greedy
`\s*` before and the `\s*` after the lazy capture group). -/
def trimRe (cs : List Char) : List Char :=
  ((cs.dropWhile isReWs).reverse.dropWhile isReWs).reverse

/-- Index of the leftmost occurrence of `pat` in a character list. -/
def findSub (pat : List Char) : List Char → Option Nat
  | [] => if beginsWith pat [] then some 0 else none
  | c :: rest =>
    if beginsWith pat (c :: rest) then some 0
    else (findSub pat rest).map (· + 1)

/-- The opening fence of the pattern. -/
def fenceOpen : List Char := "```json".toList

/-- The closing fence of the pattern. -/
def fenceClose : List Char := "```".toList

/-- One `re.findall` pass: find `` ```json ``, then the next `` ``` ``,
capture the trimmed region, continue after the closing fence.  Each
iteration consumes at least the two fences, so `length + 1` fuel
suffices. -/
def extractRegionsF : Nat → List Char → List (List Char)
  | 0, _ => []
  | fuel + 1, s =>
    match findSub fenceOpen s with
    | none => []
    | some i =>
      let rest := s.drop (i + 7)
      match findSub fenceClose rest with
      | none => []
      | some j => trimRe (rest.take j) :: extractRegionsF fuel (rest.drop (j + 3))

/-- All captured fenced regions of a text, in order of appearance. -/
def extractRegions (s : List Char) : List (List Char) :=
  extractRegionsF (s.length + 1) s

/-! ## `json.dumps` model -/

/-- Join with `", "` (the default `json.dumps` item separator). -/
def commaSep : List String → String
  | [] => ""
  | [x] => x
  | x :: y :: rest => x ++ ", " ++ commaSep (y :: rest)

/-- Lowercase hex digit. -/
def toHexDigit (n : Nat) : Char :=
  if n < 10 then Char.ofNat (48 + n) else Char.ofNat (87 + n)

/-- Four-digit lowercase hex. -/
def toHex4 (n : Nat) : String :=
  String.mk [toHexDigit (n / 4096 % 16), toHexDigit (n / 256 % 16),
             toHexDigit (n / 16 % 16), toHexDigit (n % 16)]

/-- Escaping of one character by `json.dumps` (`ensure_ascii=True`). -/
def dumpChar (c : Char) : String :=
  if c = '"' then "\\\""
  else if c = '\\' then "\\\\"
  else if c = '\n' then "\\n"
  else if c = '\r' then "\\r"
  else if c = '\t' then "\\t"
  else if c = '\x08' then "\\b"
  else if c = '\x0c' then "\\f"
  else if c.toNat < 32 ∨ c.toNat > 126 then "\\u" ++ toHex4 c.toNat
  else String.mk [c]

/-- Serialization of a string by `json.dumps`. -/
def dumpStr (s : String) : String :=
  "\"" ++ String.join (s.toList.map dumpChar) ++ "\""

mutual

/-- Serialization `json.dumps(v)` with default separators. -/
def dumpJV : JValue → String
  | .null => "null"
  | .bool true => "true"
  | .bool false => "false"
  | .num q => if q.den = 1 then toString q.num
              else toString q.num ++ "/" ++ toString q.den
  | .str s => dumpStr s
  | .arr xs => "[" ++ commaSep (dumpArr xs) ++ "]"
  | .obj kvs => "\x7b" ++ commaSep (dumpObj kvs) ++ "\x7d"

/-- Serialized array items. -/
def dumpArr : List JValue → List String
  | [] => []
  | v :: rest => dumpJV v :: dumpArr rest

/-- Serialized `"key": value` pairs. -/
def dumpObj : List (String × JValue) → List String
  | [] => []
  | (k, v) :: rest => (dumpStr k ++ ": " ++ dumpJV v) :: dumpObj rest

end

/-! ## `_extract_tool_calls` (agent.py 329-358) -/

/-- The check on line 352: `isinstance(tool_call, dict)` and the two key
membership tests for `name` and `parameters`. -/
def isToolCallDict : JValue → Bool
  | .obj kvs => hasKeyJ kvs "name" && hasKeyJ kvs "parameters"
  | _ => false

/-- Model of `_extract_tool_calls(text)`: find all fenced regions, JSON-parse each,
keep the dicts that have both a `name` and a `parameters` key; a region
that fails to parse is skipped (`except json.JSONDecodeError: continue`). -/
def extractToolCalls (text : String) : List JValue :=
  (extractRegions text.toList).filterMap fun region =>
    match parseJsonL region with
    | some tc => if isToolCallDict tc then some tc else none
    | none => none

/-! ## `_execute_tool` (agent.py 275-327) -/

/-- The keys every projected document carries (lines 299-306). -/
def requiredKeys : List String :=
  ["id", "document_number", "document_type", "title", "publication_date", "abstract"]

/-- All keys a projected document may carry (lines 299-318). -/
def summaryKeys : List String :=
  requiredKeys ++
    ["presidential_document_type", "executive_order_number", "agencies", "topics"]

/-- The projection of one document record (the loop body, lines 299-320):
the six required fields via `doc.get` (defaulting to `None`), then
`presidential_document_type` / `executive_order_number` when truthy, then
`agencies` / `topics` when the key is present. -/
def simplifyDoc (doc : List (String × JValue)) : List (String × JValue) :=
  [("id", jget doc "id"),
   ("document_number", jget doc "document_number"),
   ("document_type", jget doc "document_type"),
   ("title", jget doc "title"),
   ("publication_date", jget doc "publication_date"),
   ("abstract", jget doc "abstract")]
  ++ (if pyTruthy (jget doc "presidential_document_type") then
        [("presidential_document_type", jget doc "presidential_document_type")] else [])
  ++ (if pyTruthy (jget doc "executive_order_number") then
        [("executive_order_number", jget doc "executive_order_number")] else [])
  ++ (if hasKeyJ doc "agencies" then [("agencies", jget doc "agencies")] else [])
  ++ (if hasKeyJ doc "topics" then [("topics", jget doc "topics")] else [])

/-- The projection over a list of records. -/
def simplifyDocs (docs : List (List (String × JValue))) :
    List (List (String × JValue)) :=
  docs.map simplifyDoc

/-- One element of the result list inside the projection loop.  A non-dict
element has no `.get` method: Python raises `AttributeError` (caught by
the surrounding `try`). -/
def simplifyElem : JValue → Except String JValue
  | .obj kvs => .ok (.obj (simplifyDoc kvs))
  | _ => .error "object has no attribute get"

/-- Lines 296-324: project the handler result if and only if it is a
non-empty list whose first element is a dict containing `document_number`;
otherwise return it unchanged. -/
def simplifyResult (result : JValue) : Except String JValue :=
  match result with
  | .arr (first :: rest) =>
    match first with
    | .obj kvs =>
      if hasKeyJ kvs "document_number" then
        ((first :: rest).mapM simplifyElem).map JValue.arr
      else .ok result
    | _ => .ok result
  | _ => .ok result

/-- A capability handler: parameters dict to result; `.error` models the
handler raising (including parameter-mismatch `TypeError`). -/
def Handler : Type := List (String × JValue) → Except String JValue

/-- The capability registry `self.available_tools` (name → handler). -/
def Registry : Type := List (String × Handler)

/-- Dict lookup in the registry. -/
def lookupTool : Registry → String → Option Handler
  | [], _ => none
  | (k, f) :: rest, key => if k = key then some f else lookupTool rest key

/-- Model of `_execute_tool(tool_name, parameters)`.  The membership test
`tool_name not in self.available_tools` (line 288) runs *outside* the
`try`: Python hashes the key, so a list or dict name raises `TypeError`
to the caller (the `.error` cases here).  Everything after it is inside
the `try` (lines 291-327), whose `except` converts any exception into an
`{error: ...}` payload. -/
def executeTool (reg : Registry) (toolName : JValue) (params : JValue) :
    Except String JValue :=
  match toolName with
  | .arr _ => .error "unhashable type: list"
  | .obj _ => .error "unhashable type: dict"
  | .str s =>
    match lookupTool reg s with
    | none => .ok (.obj [("error", .str ("Tool not found: " ++ s))])
    | some f =>
      let attempt : Except String JValue :=
        match params with
        | .obj kvs => (f kvs).bind simplifyResult
        | _ => .error "argument after ** must be a mapping"
      match attempt with
      | .ok v => .ok v
      | .error e =>
        .ok (.obj [("error", .str ("Error executing tool " ++ s ++ ": " ++ e))])
  | other =>
    .ok (.obj [("error", .str ("Tool not found: " ++ pyStr other))])

/-! ## `process_message` (agent.py 360-496) -/

/-- A chat message. -/
structure Msg where
  role : String
  content : String
deriving DecidableEq, Repr

/-- The outcome of one turn, instrumented with the message list of every
gateway call that was issued (`sent`, one entry per call, in order). -/
structure TurnResult where
  reply : String
  hist : List Msg
  sent : List (List Msg)
deriving DecidableEq, Repr

/-- The fixed apology returned by the `except` handler (line 496). -/
def apologyText : String :=
  "I'm sorry, but I encountered an error while processing your request. Please try again later."

/-- The system message content (lines 376-436): a fixed instructional text
(capability list and tool-call syntax) ending with the current date.  Its
wording is never inspected by the orchestrator, so it is abbreviated
here; only its dependence on the current date is kept. -/
def systemPrompt (today : String) : String :=
  "SYSTEM PROMPT (capability list and tool-call syntax; current date " ++ today ++ ")"

/-- Line 372 tests `chat_id in self.chat_history`, i.e. `chat_id == m`
for each message dict `m`.  `chat_id` is a string or `None` and `m` is a
dict; Python `==` between them is always `False` (no `__eq__` overload on
either side), so the membership never holds. -/
def msgMatchesChatId (_m : Msg) (_chatId : Option String) : Bool := false

/-- Membership test `chat_id in self.chat_history` (always false, see
`msgMatchesChatId`). -/
def histContainsChatId (chatId : Option String) (hist : List Msg) : Bool :=
  hist.any (fun m => msgMatchesChatId m chatId)

/-- Lookup `tool_call.get("name")` (the extractor guarantees `tool_call`
is a dict). -/
def tcGetName (tc : JValue) : JValue :=
  match tc with
  | .obj kvs => jget kvs "name"
  | _ => .null

/-- Lookup `tool_call.get("parameters", {})`. -/
def tcGetParams (tc : JValue) : JValue :=
  match tc with
  | .obj kvs => jgetD kvs "parameters" (.obj [])
  | _ => .obj []

/-- One entry of the `tool_results` list (lines 463-467). -/
def mkToolResult (nameV paramsV resV : JValue) : JValue :=
  .obj [("tool_name", nameV), ("parameters", paramsV), ("result", resV)]

/-- The dispatch loop (lines 454-467): execute the extracted calls
sequentially, in order, collecting one result record per call.  An
exception escaping `_execute_tool` (only the unhashable-name
`TypeError`) aborts the loop and propagates. -/
def dispatchCalls (reg : Registry) : List JValue → Except String (List JValue)
  | [] => .ok []
  | tc :: rest =>
    match executeTool reg (tcGetName tc) (tcGetParams tc) with
    | .error e => .error e
    | .ok res =>
      match dispatchCalls reg rest with
      | .error e => .error e
      | .ok others => .ok (mkToolResult (tcGetName tc) (tcGetParams tc) res :: others)

/-- The synthetic context message (lines 470-473). -/
def toolResultsMsg (results : List JValue) : Msg :=
  ⟨"system", "Tool call results: " ++ dumpJV (.arr results)⟩

/-- Model of `process_message(message, chat_id)` (lines 360-496) for one turn.

Inputs: the registry, the gateway outcome of each completion phase
(`g1`, `g2`; `.error` models the call raising, `.ok` carries the reply
content), the current date, the user text, the chat id and the
process-wide `self.chat_history` before the call.

The body from line 444 on sits in a `try` whose `except` returns the
fixed apology; history mutations performed before an exception persist.
The embedding is a total function: every internal failure is routed
through `Except` and caught here, which is the no-raise guarantee of the
external boundary. -/
def processMessage (reg : Registry) (g1 g2 : Except Unit String) (today : String)
    (message : String) (chatId : Option String) (hist0 : List Msg) : TurnResult :=
  -- lines 371-373: `if chat_id not in self.chat_history: self.chat_history = []`
  let hist1 := if histContainsChatId chatId hist0 then hist0 else []
  -- line 439: append the user message; line 442: prompt = [system] + history
  let hist2 := hist1 ++ [⟨"user", message⟩]
  let messages := (⟨"system", systemPrompt today⟩ : Msg) :: hist2
  match g1 with
  | .error _ => ⟨apologyText, hist2, [messages]⟩
  | .ok modelResponse =>
    match extractToolCalls modelResponse with
    | [] =>
      -- lines 489-492: no tool calls, return the reply verbatim
      ⟨modelResponse, hist2 ++ [⟨"assistant", modelResponse⟩], [messages]⟩
    | tc :: tcs =>
      match dispatchCalls reg (tc :: tcs) with
      | .error _ =>
        -- an exception escaping the dispatch loop reaches the outer `except`
        ⟨apologyText, hist2, [messages]⟩
      | .ok results =>
        -- lines 469-488: append reply + tool results, second completion
        let trMsg := toolResultsMsg results
        let hist3 := hist2 ++ [⟨"assistant", modelResponse⟩, trMsg]
        let messages2 := messages ++ [⟨"assistant", modelResponse⟩, trMsg]
        match g2 with
        | .error _ => ⟨apologyText, hist3, [messages, messages2]⟩
        | .ok finalContent =>
          ⟨finalContent, hist3 ++ [⟨"assistant", finalContent⟩], [messages, messages2]⟩

/-! ## The query layer (`tools.py` / `db_manager.py`), for the
`search_recent_executive_orders` capability -/

/-- A row of the `documents` table with its joined agencies/topics
(schema in `db_manager.py`; nullable columns are `Option`).  Publication
dates are day numbers (see the header). -/
structure DbDoc where
  docId : Nat
  document_number : Option String
  document_type : Option String
  title : Option String
  publication_date : Option Nat
  abstract : Option String
  presidential_document_type : Option String
  executive_order_number : Option String
  agencies : List String
  topics : List String
deriving DecidableEq, Repr

/-- The query parameters of `db_manager.search_documents` after
`tools.search_documents` dropped the `None` entries (`none` = absent). -/
structure QueryParams where
  keywords : Option String
  date_from : Option Nat
  date_to : Option Nat
  document_type : Option String
  agency : Option String
  topic : Option String
  presidential_doc_type : Option String
  executive_order : Option String
  qlimit : Nat
  qoffset : Nat
deriving Repr

/-- SQL `LIKE "%pat%"`: substring containment. -/
def containsSub (hay pat : String) : Bool :=
  (findSub pat.toList hay.toList).isSome

/-- The `WHERE` clauses built in `db_manager.search_documents`
(lines 294-326), evaluated on one row.  Each clause is added only when
the parameter is truthy (present and non-empty); comparison with a SQL
`NULL` column never matches. -/
def rowMatches (qp : QueryParams) (d : DbDoc) : Bool :=
  (match qp.date_from with
   | none => true
   | some df => match d.publication_date with
     | none => false
     | some p => decide (df ≤ p))
  && (match qp.date_to with
      | none => true
      | some dt => match d.publication_date with
        | none => false
        | some p => decide (p ≤ dt))
  && (match qp.document_type with
      | none => true
      | some t => if t = "" then true else d.document_type == some t)
  && (match qp.agency with
      | none => true
      | some a => if a = "" then true else d.agencies.any (fun an => containsSub an a))
  && (match qp.topic with
      | none => true
      | some t => if t = "" then true else d.topics.any (fun tn => containsSub tn t))
  && (match qp.presidential_doc_type with
      | none => true
      | some t => if t = "" then true
                  else match d.presidential_document_type with
                    | none => false
                    | some pt => containsSub pt t)
  && (match qp.keywords with
      | none => true
      | some kw =>
        if kw = "" then true
        else (match d.title with | some ti => containsSub ti kw | none => false)
          || (match d.abstract with | some ab => containsSub ab kw | none => false))
  && (match qp.executive_order with
      | none => true
      | some eo => if eo = "" then true else d.executive_order_number == some eo)

/-- Comparison for `ORDER BY publication_date DESC`: later dates first,
`NULL`s last (MySQL sorts `NULL` first ascending, hence last
descending). -/
def dateDescLe (a b : DbDoc) : Bool :=
  match a.publication_date, b.publication_date with
  | some x, some y => decide (y ≤ x)
  | some _, none => true
  | none, some _ => false
  | none, none => true

/-- Insertion into a list sorted by `dateDescLe`. -/
def insertByDate (x : DbDoc) : List DbDoc → List DbDoc
  | [] => [x]
  | y :: rest => if dateDescLe x y then x :: y :: rest else y :: insertByDate x rest

/-- Sorting for `ORDER BY publication_date DESC` (ties in an arbitrary but fixed
order, as in SQL). -/
def sortByDateDesc : List DbDoc → List DbDoc
  | [] => []
  | x :: rest => insertByDate x (sortByDateDesc rest)

/-- Model of `db_manager.search_documents(query_params)` over an in-memory table:
filter by the `WHERE` clauses, sort by publication date descending,
apply `OFFSET` then `LIMIT`. -/
def dbSearchDocuments (table : List DbDoc) (qp : QueryParams) : List DbDoc :=
  ((sortByDateDesc (table.filter (rowMatches qp))).drop qp.qoffset).take qp.qlimit

/-- Model of `tools.search_documents` (tools.py 29-79): build the parameter dict,
drop `None` values (the `Option` fields model exactly that) and delegate
to the database layer. -/
def search_documents (table : List DbDoc) (qp : QueryParams) : List DbDoc :=
  dbSearchDocuments table qp

/-- Model of `tools.search_recent_executive_orders(days, limit)` (tools.py
165-182): `date_from = (datetime.now() - timedelta(days=days))` formatted
as `YYYY-MM-DD` — the day number `now - days` — then delegate to
`search_documents` with `presidential_doc_type="Executive Order"`,
that `date_from` and that `limit`. -/
def search_recent_executive_orders (now : Nat) (table : List DbDoc)
    (days : Nat) (limit : Nat) : List DbDoc :=
  let date_from := now - days
  search_documents table
    (QueryParams.mk none (some date_from) none none none none
      (some "Executive Order") none limit 0)


/-! ## Auxiliary definitions used by the statements -/

/-- Holds iff the string contains no backtick. -/
def btFree (s : String) : Bool :=
  s.toList.all (fun c => c != btChar)

/-- Holds iff a name value is hashable in Python (lists and dicts are
the only unhashable JSON shapes). -/
def hashableJ : JValue → Bool
  | .arr _ => false
  | .obj _ => false
  | _ => true

/-- Build a text interleaving fillers and fenced blocks:
`filler₁ ```json block₁ ``` filler₂ ```json block₂ ``` … tailStr`. -/
def render : List (String × String) → String → String
  | [], tailStr => tailStr
  | (filler, block) :: rest, tailStr =>
    filler ++ "```json" ++ block ++ "```" ++ render rest tailStr

/-- What the extractor keeps of one region (parse, then the dict test). -/
def keepBlock (b : List Char) : Option JValue :=
  match parseJsonL b with
  | some tc => if isToolCallDict tc then some tc else none
  | none => none

/-- A block is well-formed when the extractor would keep it. -/
def wellFormedBlock (b : List Char) : Bool :=
  (keepBlock b).isSome

/-! ## Concrete instances used by witnesses and counterexamples -/

/-- A reply text carrying one well-formed tool-call block naming `x`. -/
def toolCallTextX : String :=
  "```json\n\x7b\"name\": \"x\", \"parameters\": \x7b\x7d\x7d\n```"

/-- A reply text whose single tool-call block has the unhashable name `[]`. -/
def unhashNameText : String :=
  "```json\n\x7b\"name\": [], \"parameters\": \x7b\x7d\x7d\n```"

/-- A reply text whose single block has `name`, `parameters` and an extra key. -/
def extraKeysText : String :=
  "```json \x7b\"name\": \"x\", \"parameters\": \x7b\x7d, \"extra\": true\x7d ```"

/-- A sample executive-order row (published on day 120). -/
def eoDoc : DbDoc :=
  ⟨1, some "2025-00001", some "Presidential Document", some "Sample order",
   some 120, none, some "Executive Order", some "14000", [], []⟩

/-! ## Lemmas: the fenced-block scan -/

theorem beginsWith_length {pat s : List Char} (h : beginsWith pat s = true) :
    pat.length ≤ s.length := by
  induction pat generalizing s with
  | nil => simp
  | cons p ps ih =>
    cases s with
    | nil => simp [beginsWith] at h
    | cons c cs =>
      simp only [beginsWith, Bool.and_eq_true, decide_eq_true_eq] at h
      simpa using Nat.succ_le_succ (ih h.2)

theorem findSub_cons (pat : List Char) (c : Char) (cs : List Char) :
    findSub pat (c :: cs) =
      if beginsWith pat (c :: cs) then some 0 else (findSub pat cs).map (· + 1) := rfl

theorem findSub_bound {pat s : List Char} {i : Nat} (h : findSub pat s = some i) :
    i + pat.length ≤ s.length := by
  induction s generalizing i with
  | nil =>
    unfold findSub at h
    split at h
    · next hb =>
      have := beginsWith_length hb
      simp_all
    · exact absurd h (by simp)
  | cons c cs ih =>
    unfold findSub at h
    split at h
    · next hb =>
      have h0 : i = 0 := by simp_all
      subst h0
      simpa using beginsWith_length hb
    · next =>
      rw [Option.map_eq_some'] at h
      obtain ⟨j, hj, hij⟩ := h
      have := ih hj
      simp only [List.length_cons]
      omega


theorem findSub_append_left {pat : List Char} (hp : ∃ p, pat = btChar :: p)
    {f : List Char} (hf : ∀ c ∈ f, c ≠ btChar) (s : List Char) :
    findSub pat (f ++ s) = (findSub pat s).map (· + f.length) := by
  induction f with
  | nil =>
    simp only [List.nil_append, List.length_nil]
    cases findSub pat s <;> simp
  | cons c f' ih =>
    obtain ⟨p, hpat⟩ := hp
    have hc : c ≠ btChar := hf c (by simp)
    have hbw : beginsWith pat (c :: (f' ++ s)) = false := by
      subst hpat
      have hd : decide (btChar = c) = false := decide_eq_false (fun h => hc h.symm)
      simp [beginsWith, hd]
    rw [List.cons_append, findSub_cons, hbw]
    simp only [Bool.false_eq_true, if_false]
    rw [ih (fun x hx => hf x (List.mem_cons_of_mem _ hx))]
    cases h2 : findSub pat s with
    | none => simp
    | some j => simp [Nat.add_assoc]

theorem beginsWith_append_self (p r : List Char) : beginsWith p (p ++ r) = true := by
  induction p <;> simp [beginsWith, *]

theorem findSub_self {pat : List Char} (hne : pat ≠ []) (r : List Char) :
    findSub pat (pat ++ r) = some 0 := by
  cases pat with
  | nil => exact absurd rfl hne
  | cons c cs =>
    simp only [List.cons_append]
    unfold findSub
    have : beginsWith (c :: cs) (c :: (cs ++ r)) = true := by
      simpa using beginsWith_append_self (c :: cs) r
    simp [this]

theorem findSub_none_of_btFree {pat : List Char} (hp : ∃ p, pat = btChar :: p)
    {f : List Char} (hf : ∀ c ∈ f, c ≠ btChar) : findSub pat f = none := by
  have h := findSub_append_left hp hf []
  obtain ⟨p, hpat⟩ := hp
  have h0 : findSub pat ([] : List Char) = none := by
    subst hpat
    simp [findSub, beginsWith]
  rw [List.append_nil] at h
  rw [h, h0]
  rfl

theorem fenceOpen_length : fenceOpen.length = 7 := by decide

theorem fenceClose_length : fenceClose.length = 3 := by decide

theorem extractRegionsF_succ (fuel : Nat) (s : List Char) :
    extractRegionsF (fuel + 1) s =
      match findSub fenceOpen s with
      | none => []
      | some i =>
        match findSub fenceClose (s.drop (i + 7)) with
        | none => []
        | some j =>
          trimRe ((s.drop (i + 7)).take j) ::
            extractRegionsF fuel ((s.drop (i + 7)).drop (j + 3)) := rfl

theorem extractRegionsF_congr : ∀ (f1 : Nat), ∀ (f2 : Nat) (s : List Char),
    s.length < f1 → s.length < f2 → extractRegionsF f1 s = extractRegionsF f2 s := by
  intro f1
  induction f1 with
  | zero => intro f2 s h1 _; omega
  | succ n ih =>
    intro f2 s h1 h2
    cases f2 with
    | zero => omega
    | succ m =>
      rw [extractRegionsF_succ, extractRegionsF_succ]
      cases hfo : findSub fenceOpen s with
      | none => simp only [hfo]
      | some i =>
        cases hfc : findSub fenceClose (s.drop (i + 7)) with
        | none => simp only [hfo, hfc]
        | some j =>
          have hb1 := findSub_bound hfo
          have hb2 := findSub_bound hfc
          rw [fenceOpen_length] at hb1
          rw [fenceClose_length] at hb2
          simp only [List.length_drop] at hb2
          simp only [hfo, hfc]
          congr 1
          apply ih
          · simp only [List.length_drop]; omega
          · simp only [List.length_drop]; omega

theorem extractRegions_step {f b : List Char} (rest : List Char)
    (hf : ∀ c ∈ f, c ≠ btChar) (hb : ∀ c ∈ b, c ≠ btChar) :
    extractRegions (f ++ (fenceOpen ++ (b ++ (fenceClose ++ rest))))
      = trimRe b :: extractRegions rest := by
  have hp7 : ∃ p, fenceOpen = btChar :: p := ⟨fenceOpen.tail, by decide⟩
  have hp3 : ∃ p, fenceClose = btChar :: p := ⟨fenceClose.tail, by decide⟩
  have h1 : findSub fenceOpen (f ++ (fenceOpen ++ (b ++ (fenceClose ++ rest))))
      = some f.length := by
    rw [findSub_append_left hp7 hf, findSub_self (by decide)]
    simp
  have hdrop1 : (f ++ (fenceOpen ++ (b ++ (fenceClose ++ rest)))).drop (f.length + 7)
      = b ++ (fenceClose ++ rest) := by
    rw [show f ++ (fenceOpen ++ (b ++ (fenceClose ++ rest)))
          = (f ++ fenceOpen) ++ (b ++ (fenceClose ++ rest)) from by
        simp [List.append_assoc]]
    rw [show f.length + 7 = (f ++ fenceOpen).length from by simp [fenceOpen_length]]
    exact List.drop_left _ _
  have h2 : findSub fenceClose (b ++ (fenceClose ++ rest)) = some b.length := by
    rw [findSub_append_left hp3 hb, findSub_self (by decide)]
    simp
  have htake : (b ++ (fenceClose ++ rest)).take b.length = b := List.take_left _ _
  have hdrop2 : (b ++ (fenceClose ++ rest)).drop (b.length + 3) = rest := by
    rw [show b ++ (fenceClose ++ rest) = (b ++ fenceClose) ++ rest from by
        simp [List.append_assoc]]
    rw [show b.length + 3 = (b ++ fenceClose).length from by simp [fenceClose_length]]
    exact List.drop_left _ _
  have hlen : (f ++ (fenceOpen ++ (b ++ (fenceClose ++ rest)))).length
      = f.length + b.length + rest.length + 10 := by
    simp [fenceOpen_length, fenceClose_length]
    omega
  unfold extractRegions
  rw [hlen, extractRegionsF_succ]
  simp only [h1, hdrop1, h2, htake, hdrop2]
  congr 1
  apply extractRegionsF_congr
  · omega
  · omega

theorem btFree_forall {s : String} (h : btFree s = true) :
    ∀ c ∈ s.toList, c ≠ btChar := by
  intro c hc
  have := List.all_eq_true.mp h c hc
  simpa using this

theorem extractRegions_render :
    ∀ (pieces : List (String × String)) (tailStr : String),
    (∀ pr ∈ pieces, btFree pr.1 = true) →
    (∀ pr ∈ pieces, btFree pr.2 = true) →
    btFree tailStr = true →
    extractRegions (render pieces tailStr).toList
      = pieces.map (fun pr => trimRe pr.2.toList) := by
  intro pieces
  induction pieces with
  | nil =>
    intro tailStr _ _ ht
    have hp7 : ∃ p, fenceOpen = btChar :: p := ⟨fenceOpen.tail, by decide⟩
    unfold render extractRegions
    rw [extractRegionsF_succ, findSub_none_of_btFree hp7 (btFree_forall ht)]
    rfl
  | cons pr rest ih =>
    intro tailStr hf hb ht
    obtain ⟨filler, block⟩ := pr
    have hlist : (render ((filler, block) :: rest) tailStr).toList
        = filler.toList ++ (fenceOpen ++ (block.toList ++ (fenceClose
            ++ (render rest tailStr).toList))) := by
      simp [render, fenceOpen, fenceClose, String.toList, String.data_append,
        List.append_assoc]
    have hfil : ∀ c ∈ filler.toList, c ≠ btChar :=
      btFree_forall (hf (filler, block) (by simp))
    have hblk : ∀ c ∈ block.toList, c ≠ btChar :=
      btFree_forall (hb (filler, block) (by simp))
    rw [hlist, extractRegions_step _ hfil hblk]
    rw [ih tailStr (fun q hq => hf q (by simp [hq])) (fun q hq => hb q (by simp [hq])) ht]
    simp

theorem extractToolCalls_eq_filterMap (text : String) :
    extractToolCalls text = (extractRegions text.toList).filterMap keepBlock := rfl

theorem length_filterMap_eq_countP {α β : Type} (g : α → Option β) (l : List α) :
    (l.filterMap g).length = l.countP (fun x => (g x).isSome) := by
  induction l with
  | nil => rfl
  | cons x xs ih =>
    cases h : g x <;> simp [List.filterMap_cons, h, List.countP_cons, ih]

/-! ## Lemmas: the result projection -/

theorem pyTruthy_null : pyTruthy .null = false := rfl

theorem simplifyDoc_idem (d : List (String × JValue)) :
    simplifyDoc (simplifyDoc d) = simplifyDoc d := by
  cases h1 : pyTruthy (jgetD d "presidential_document_type" .null) <;>
  cases h2 : pyTruthy (jgetD d "executive_order_number" .null) <;>
  cases h3 : hasKeyJ d "agencies" <;>
  cases h4 : hasKeyJ d "topics" <;>
  simp [simplifyDoc, jget, jgetD, hasKeyJ, pyTruthy_null, h1, h2, h3, h4]

theorem jgetD_of_hasKeyJ_false {d : List (String × JValue)} {k : String}
    {dflt : JValue} (h : hasKeyJ d k = false) : jgetD d k dflt = dflt := by
  induction d with
  | nil => rfl
  | cons p rest ih =>
    obtain ⟨k2, v⟩ := p
    by_cases hk : k2 = k
    · simp [hasKeyJ, hk] at h
    · simp only [hasKeyJ, hk, if_false] at h
      simp only [jgetD, hk, if_false]
      exact ih h

theorem hasKeyJ_append (l1 l2 : List (String × JValue)) (k : String) :
    hasKeyJ (l1 ++ l2) k = (hasKeyJ l1 k || hasKeyJ l2 k) := by
  induction l1 with
  | nil => simp [hasKeyJ]
  | cons p rest ih =>
    obtain ⟨k2, v⟩ := p
    by_cases hk : k2 = k <;> simp [hasKeyJ, hk, ih]

theorem simplifyDoc_required (d : List (String × JValue)) :
    ∀ k ∈ requiredKeys, hasKeyJ (simplifyDoc d) k = true := by
  intro k hk
  simp only [requiredKeys, List.mem_cons, List.not_mem_nil, or_false] at hk
  rcases hk with rfl | rfl | rfl | rfl | rfl | rfl <;>
    simp [simplifyDoc, hasKeyJ]

theorem simplifyDoc_nullFill (d : List (String × JValue)) :
    ∀ k ∈ requiredKeys, hasKeyJ d k = false → jget (simplifyDoc d) k = .null := by
  intro k hk h
  simp only [requiredKeys, List.mem_cons, List.not_mem_nil, or_false] at hk
  rcases hk with rfl | rfl | rfl | rfl | rfl | rfl <;>
    simp [simplifyDoc, jget, jgetD, jgetD_of_hasKeyJ_false h]

theorem simplifyDoc_keys_sub (d : List (String × JValue)) (k : String)
    (hk : hasKeyJ (simplifyDoc d) k = true) : k ∈ summaryKeys := by
  by_contra hmem
  have n1 : ("id" : String) ≠ k := fun h => hmem (h ▸ (by decide : ("id" : String) ∈ summaryKeys))
  have n2 : ("document_number" : String) ≠ k :=
    fun h => hmem (h ▸ (by decide : ("document_number" : String) ∈ summaryKeys))
  have n3 : ("document_type" : String) ≠ k :=
    fun h => hmem (h ▸ (by decide : ("document_type" : String) ∈ summaryKeys))
  have n4 : ("title" : String) ≠ k :=
    fun h => hmem (h ▸ (by decide : ("title" : String) ∈ summaryKeys))
  have n5 : ("publication_date" : String) ≠ k :=
    fun h => hmem (h ▸ (by decide : ("publication_date" : String) ∈ summaryKeys))
  have n6 : ("abstract" : String) ≠ k :=
    fun h => hmem (h ▸ (by decide : ("abstract" : String) ∈ summaryKeys))
  have n7 : ("presidential_document_type" : String) ≠ k :=
    fun h => hmem (h ▸ (by decide : ("presidential_document_type" : String) ∈ summaryKeys))
  have n8 : ("executive_order_number" : String) ≠ k :=
    fun h => hmem (h ▸ (by decide : ("executive_order_number" : String) ∈ summaryKeys))
  have n9 : ("agencies" : String) ≠ k :=
    fun h => hmem (h ▸ (by decide : ("agencies" : String) ∈ summaryKeys))
  have n10 : ("topics" : String) ≠ k :=
    fun h => hmem (h ▸ (by decide : ("topics" : String) ∈ summaryKeys))
  have hfalse : hasKeyJ (simplifyDoc d) k = false := by
    simp [simplifyDoc, hasKeyJ_append, hasKeyJ, apply_ite (fun l => hasKeyJ l k),
      n1, n2, n3, n4, n5, n6, n7, n8, n9, n10]
  rw [hfalse] at hk
  exact Bool.false_ne_true hk

/-! ## Lemmas: tool dispatch -/

theorem executeTool_ok_of_hashable (reg : Registry) {n : JValue}
    (hn : hashableJ n = true) (p : JValue) :
    ∃ v, executeTool reg n p = .ok v := by
  cases n with
  | arr xs => simp [hashableJ] at hn
  | obj kvs => simp [hashableJ] at hn
  | null => exact ⟨_, rfl⟩
  | bool b => exact ⟨_, rfl⟩
  | num q => exact ⟨_, rfl⟩
  | str s =>
    cases hl : lookupTool reg s with
    | none =>
      exact ⟨.obj [("error", .str ("Tool not found: " ++ s))], by simp [executeTool, hl]⟩
    | some f =>
      cases hatt : (match p with
          | .obj kvs => (f kvs).bind simplifyResult
          | _ => (.error "argument after ** must be a mapping" : Except String JValue)) with
      | ok v => exact ⟨v, by simp [executeTool, hl, hatt]⟩
      | error e =>
        exact ⟨.obj [("error", .str ("Error executing tool " ++ s ++ ": " ++ e))],
          by simp [executeTool, hl, hatt]⟩

theorem executeTool_not_found (reg : Registry) (s : String) (p : JValue)
    (h : lookupTool reg s = none) :
    executeTool reg (.str s) p
      = .ok (.obj [("error", .str ("Tool not found: " ++ s))]) := by
  simp [executeTool, h]

theorem executeTool_handler_error (reg : Registry) (s : String) (f : Handler)
    (kvs : List (String × JValue)) (m : String)
    (hl : lookupTool reg s = some f) (hf : f kvs = .error m) :
    executeTool reg (.str s) (.obj kvs)
      = .ok (.obj [("error", .str ("Error executing tool " ++ s ++ ": " ++ m))]) := by
  simp [executeTool, hl, hf, Except.bind]

theorem dispatchCalls_ok (reg : Registry) :
    ∀ (tcs : List JValue), (∀ tc ∈ tcs, hashableJ (tcGetName tc) = true) →
    ∃ rs, dispatchCalls reg tcs = .ok rs ∧ rs.length = tcs.length ∧
      ∀ (i : Nat) (hi : i < tcs.length) (hr : i < rs.length),
        ∃ res,
          executeTool reg (tcGetName (tcs.get ⟨i, hi⟩)) (tcGetParams (tcs.get ⟨i, hi⟩))
            = .ok res ∧
          rs.get ⟨i, hr⟩
            = mkToolResult (tcGetName (tcs.get ⟨i, hi⟩)) (tcGetParams (tcs.get ⟨i, hi⟩)) res := by
  intro tcs
  induction tcs with
  | nil =>
    intro _
    exact ⟨[], rfl, rfl, by intro i hi hr; exact absurd hi (by simp)⟩
  | cons tc rest ih =>
    intro hall
    obtain ⟨v, hv⟩ := executeTool_ok_of_hashable reg (hall tc (by simp)) (tcGetParams tc)
    obtain ⟨rs, hrs, hlen, hpt⟩ := ih (fun q hq => hall q (by simp [hq]))
    refine ⟨mkToolResult (tcGetName tc) (tcGetParams tc) v :: rs, ?_, by simp [hlen], ?_⟩
    · simp [dispatchCalls, hv, hrs]
    · intro i hi hr
      cases i with
      | zero => exact ⟨v, hv, rfl⟩
      | succ i2 =>
        have hi2 : i2 < rest.length := by simpa using hi
        have hr2 : i2 < rs.length := by simpa using hr
        obtain ⟨res, ha, hb⟩ := hpt i2 hi2 hr2
        exact ⟨res, by simpa using ha, by simpa using hb⟩

/-! ## Lemmas: the query layer -/

theorem mem_insertByDate {x y : DbDoc} {l : List DbDoc} :
    y ∈ insertByDate x l ↔ y = x ∨ y ∈ l := by
  induction l with
  | nil => simp [insertByDate]
  | cons z rest ih =>
    simp only [insertByDate]
    split
    · simp [List.mem_cons]
    · simp only [List.mem_cons, ih]
      tauto

theorem mem_sortByDateDesc {y : DbDoc} {l : List DbDoc} :
    y ∈ sortByDateDesc l ↔ y ∈ l := by
  induction l with
  | nil => simp [sortByDateDesc]
  | cons x rest ih => simp [sortByDateDesc, mem_insertByDate, ih]

/-! ## Claim theorems -/

theorem histContainsChatId_false (chatId : Option String) (hist : List Msg) :
    histContainsChatId chatId hist = false := by
  simp [histContainsChatId, msgMatchesChatId]

/-- C1: for every input, session id, gateway behaviour at either phase and
handler behaviour, `process_message` is a total function into a result
carrying a reply string (never raises: every internal failure is routed
through `Except` and caught by the outer handler of the embedding), and
whenever a gateway call fails — the phase-1 call, or the phase-2 call
when it is reached — the returned string is the fixed apology string. -/
theorem c1_total_and_gateway_apology (reg : Registry) (g1 g2 : Except Unit String)
    (today message : String) (chatId : Option String) (hist0 : List Msg) :
    (g1 = .error () →
      (processMessage reg g1 g2 today message chatId hist0).reply = apologyText)
    ∧ (∀ t rs, g1 = .ok t → extractToolCalls t ≠ [] →
        dispatchCalls reg (extractToolCalls t) = .ok rs → g2 = .error () →
        (processMessage reg g1 g2 today message chatId hist0).reply = apologyText) := by
  constructor
  · intro h
    subst h
    rfl
  · intro t rs hok hne hdisp hg2
    subst hok
    subst hg2
    cases hx : extractToolCalls t with
    | nil => exact absurd hx hne
    | cons tc tcs =>
      rw [hx] at hdisp
      simp [processMessage, hx, hdisp]

theorem c1_witness :
    (processMessage [] (.error ()) (.ok "x") "2025-01-01" "hi" none []).reply
      = apologyText :=
  (c1_total_and_gateway_apology [] (.error ()) (.ok "x") "2025-01-01" "hi" none []).1 rfl

/-- C4: when the phase-1 reply contains no valid structured block, exactly
one gateway call occurs (one entry in `sent`), the reply is appended as an
assistant message, and its content is returned verbatim. -/
theorem c4_no_tool_calls_single_call (reg : Registry) (g2 : Except Unit String)
    (today message : String) (chatId : Option String) (hist0 : List Msg) (t : String)
    (h : extractToolCalls t = []) :
    processMessage reg (.ok t) g2 today message chatId hist0 =
      ⟨t, [⟨"user", message⟩, ⟨"assistant", t⟩],
       [[⟨"system", systemPrompt today⟩, ⟨"user", message⟩]]⟩ := by
  simp [processMessage, h, histContainsChatId_false]

theorem c4_witness :
    processMessage [] (.ok "plain reply") (.ok "x") "2025-01-01" "hello" (some "s") [] =
      ⟨"plain reply", [⟨"user", "hello"⟩, ⟨"assistant", "plain reply"⟩],
       [[⟨"system", systemPrompt "2025-01-01"⟩, ⟨"user", "hello"⟩]]⟩ :=
  c4_no_tool_calls_single_call [] (.ok "x") "2025-01-01" "hello" (some "s") []
    "plain reply" rfl

/-- C5 (corrected): when the phase-1 gateway call fails, the turn returns
the apology and the history holds the user message and nothing else; when
the phase-2 call fails, the turn returns the apology but the history
additionally holds the phase-1 assistant reply and the tool-results
context message (they are appended *before* the phase-2 call), though no
final assistant message. -/
theorem c5_amended_gateway_failure_history (reg : Registry) (today message : String)
    (chatId : Option String) (hist0 : List Msg) :
    (∀ g2, processMessage reg (.error ()) g2 today message chatId hist0 =
        ⟨apologyText, [⟨"user", message⟩],
         [[⟨"system", systemPrompt today⟩, ⟨"user", message⟩]]⟩)
    ∧ (∀ t rs, extractToolCalls t ≠ [] →
        dispatchCalls reg (extractToolCalls t) = .ok rs →
        processMessage reg (.ok t) (.error ()) today message chatId hist0 =
          ⟨apologyText,
           [⟨"user", message⟩, ⟨"assistant", t⟩, toolResultsMsg rs],
           [[⟨"system", systemPrompt today⟩, ⟨"user", message⟩],
            [⟨"system", systemPrompt today⟩, ⟨"user", message⟩, ⟨"assistant", t⟩,
             toolResultsMsg rs]]⟩) := by
  constructor
  · intro g2
    simp [processMessage, histContainsChatId_false]
  · intro t rs hne hdisp
    cases hx : extractToolCalls t with
    | nil => exact absurd hx hne
    | cons tc tcs =>
      rw [hx] at hdisp
      simp [processMessage, hx, hdisp, histContainsChatId_false]

theorem c5_witness :
    processMessage [] (.error ()) (.ok "x") "2025-01-01" "question" (some "s") [] =
      ⟨apologyText, [⟨"user", "question"⟩],
       [[⟨"system", systemPrompt "2025-01-01"⟩, ⟨"user", "question"⟩]]⟩ :=
  (c5_amended_gateway_failure_history [] "2025-01-01" "question" (some "s") []).1 (.ok "x")

/-- C5 counterexample: a phase-2 gateway failure returns the apology, yet
the session history *does* contain an assistant message for the turn (the
phase-1 reply), contradicting the claim that no assistant message is
present after a gateway failure. -/
theorem c5_counterexample_phase2_history :
    (processMessage [] (.ok toolCallTextX) (.error ()) "2025-01-01" "hi" (some "s") []).reply
      = apologyText
    ∧ (⟨"assistant", toolCallTextX⟩ : Msg) ∈
        (processMessage [] (.ok toolCallTextX) (.error ()) "2025-01-01" "hi" (some "s") []).hist := by
  constructor
  · rfl
  · decide

/-- C7 (code bug): the reset check on line 372 tests membership of the
chat id in a list of message dicts, which is always false, so the history
is wiped at the start of *every* call.  Evaluated at the failing input —
two consecutive calls with the same session id — the first turn leaves
its two messages in history, yet the only prompt of the second turn contains
just the system message and the new user message: the messages of the first turn are
gone, contradicting the claimed process-lifetime
persistence. -/
theorem c7_history_reset_every_call :
    (processMessage [] (.ok "hello there") (.ok "x") "2025-01-01" "first question"
        (some "s1") []).hist
      = [⟨"user", "first question"⟩, ⟨"assistant", "hello there"⟩]
    ∧ (processMessage [] (.ok "hi again") (.ok "y") "2025-01-01" "second question"
        (some "s1")
        [⟨"user", "first question"⟩, ⟨"assistant", "hello there"⟩]).sent
      = [[⟨"system", systemPrompt "2025-01-01"⟩, ⟨"user", "second question"⟩]] :=
  ⟨rfl, rfl⟩

/-- C2 counterexample: the membership test `tool_name not in
self.available_tools` runs outside the `try` and hashes the name; for the
extracted request `{name: [], parameters: {}}` (whose name is not in the
registry) it raises `TypeError`, so the dispatcher yields *no* `{error:
"Tool not found: ..."}` payload, no second gateway call occurs (one entry
in `sent` despite a working phase-2 gateway), and the turn returns the
apology — contradicting the claim for this list of extracted requests. -/
theorem c2_counterexample_unhashable_name :
    extractToolCalls unhashNameText
        = [.obj [("name", .arr []), ("parameters", .obj [])]]
    ∧ dispatchCalls [] (extractToolCalls unhashNameText) = .error "unhashable type: list"
    ∧ (processMessage [] (.ok unhashNameText) (.ok "x") "2025-01-01" "hi" none []).reply
        = apologyText
    ∧ (processMessage [] (.ok unhashNameText) (.ok "x") "2025-01-01" "hi" none []).sent.length
        = 1 :=
  ⟨rfl, rfl, rfl, rfl⟩

/-- C2 (corrected): for every extracted request list whose `name` values
are hashable, dispatch processes the requests sequentially in input order
and produces exactly one result per request in the same order; a request
whose (string) name is not registered yields exactly the payload
`{error: "Tool not found: <name>"}`; a request whose handler raises is
converted to an `{error: message}` payload without affecting the other
results; and a second gateway call still occurs, with the serialized
result list embedded in a synthetic context message. -/
theorem c2_amended_dispatch (reg : Registry) (t : String)
    (hne : extractToolCalls t ≠ [])
    (hhash : ∀ tc ∈ extractToolCalls t, hashableJ (tcGetName tc) = true)
    (g2 : Except Unit String) (today message : String) (chatId : Option String)
    (hist0 : List Msg) :
    ∃ rs, dispatchCalls reg (extractToolCalls t) = .ok rs
      ∧ rs.length = (extractToolCalls t).length
      ∧ (∀ (i : Nat) (hi : i < (extractToolCalls t).length) (hr : i < rs.length),
          ∃ res,
            executeTool reg (tcGetName ((extractToolCalls t).get ⟨i, hi⟩))
                (tcGetParams ((extractToolCalls t).get ⟨i, hi⟩)) = .ok res ∧
            rs.get ⟨i, hr⟩
              = mkToolResult (tcGetName ((extractToolCalls t).get ⟨i, hi⟩))
                  (tcGetParams ((extractToolCalls t).get ⟨i, hi⟩)) res)
      ∧ (∀ (s : String) (p : JValue), lookupTool reg s = none →
          executeTool reg (.str s) p
            = .ok (.obj [("error", .str ("Tool not found: " ++ s))]))
      ∧ (∀ (s : String) (f : Handler) (kvs : List (String × JValue)) (m : String),
          lookupTool reg s = some f → f kvs = .error m →
          executeTool reg (.str s) (.obj kvs)
            = .ok (.obj [("error", .str ("Error executing tool " ++ s ++ ": " ++ m))]))
      ∧ (processMessage reg (.ok t) g2 today message chatId hist0).sent
          = [[⟨"system", systemPrompt today⟩, ⟨"user", message⟩],
             [⟨"system", systemPrompt today⟩, ⟨"user", message⟩, ⟨"assistant", t⟩,
              toolResultsMsg rs]] := by
  obtain ⟨rs, hrs, hlen, hpt⟩ := dispatchCalls_ok reg (extractToolCalls t) hhash
  refine ⟨rs, hrs, hlen, hpt, executeTool_not_found reg,
    fun s f kvs m hl hf => executeTool_handler_error reg s f kvs m hl hf, ?_⟩
  cases hx : extractToolCalls t with
  | nil => exact absurd hx hne
  | cons tc tcs =>
    rw [hx] at hrs
    cases g2 <;> simp [processMessage, hx, hrs, histContainsChatId_false]

theorem c2_witness :
    (processMessage [] (.ok toolCallTextX) (.ok "done") "2025-01-01" "hi" none []).sent.length
      = 2 := by
  obtain ⟨rs, h1, h2, h3, h4, h5, h6⟩ :=
    c2_amended_dispatch [] toolCallTextX
      (by
        rw [show extractToolCalls toolCallTextX
              = [.obj [("name", .str "x"), ("parameters", .obj [])]] from rfl]
        simp)
      (by
        rw [show extractToolCalls toolCallTextX
              = [.obj [("name", .str "x"), ("parameters", .obj [])]] from rfl]
        decide)
      (.ok "done") "2025-01-01" "hi" none []
  rw [h6]
  rfl

/-- C3: for every text assembled from backtick-free fillers and N + M
pre-trimmed, backtick-free fenced blocks in arbitrary order, the extractor
returns exactly the requests of the well-formed blocks (those that parse
to a dict carrying `name` and `parameters`), ordered by the position of
their blocks; malformed blocks are skipped without aborting the scan, and
the empty result is the outcome when no block is well-formed. -/
theorem c3_extractor_wellformed_in_order (pieces : List (String × String))
    (tailStr : String)
    (hf : ∀ pr ∈ pieces, btFree pr.1 = true)
    (hb : ∀ pr ∈ pieces, btFree pr.2 = true)
    (htrim : ∀ pr ∈ pieces, trimRe pr.2.toList = pr.2.toList)
    (ht : btFree tailStr = true) :
    extractToolCalls (render pieces tailStr)
      = pieces.filterMap (fun pr => keepBlock pr.2.toList)
    ∧ (extractToolCalls (render pieces tailStr)).length
      = pieces.countP (fun pr => wellFormedBlock pr.2.toList) := by
  have hmain : extractToolCalls (render pieces tailStr)
      = pieces.filterMap (fun pr => keepBlock pr.2.toList) := by
    rw [extractToolCalls_eq_filterMap, extractRegions_render pieces tailStr hf hb ht]
    rw [List.filterMap_map]
    apply List.filterMap_congr
    intro pr hpr
    show keepBlock (trimRe pr.2.toList) = keepBlock pr.2.toList
    rw [htrim pr hpr]
  refine ⟨hmain, ?_⟩
  rw [hmain, length_filterMap_eq_countP]
  rfl

theorem c3_witness :
    extractToolCalls (render
        [("intro ", "\x7b\"name\": \"u\", \"parameters\": \x7b\x7d\x7d"),
         ("and ", "not json at all"),
         ("then ", "\x7b\"name\": \"v\", \"parameters\": \x7b\x7d\x7d")] " done")
      = [.obj [("name", .str "u"), ("parameters", .obj [])],
         .obj [("name", .str "v"), ("parameters", .obj [])]]
    ∧ (extractToolCalls (render
        [("intro ", "\x7b\"name\": \"u\", \"parameters\": \x7b\x7d\x7d"),
         ("and ", "not json at all"),
         ("then ", "\x7b\"name\": \"v\", \"parameters\": \x7b\x7d\x7d")] " done")).length
      = 2 := by
  have h := c3_extractor_wellformed_in_order
    [("intro ", "\x7b\"name\": \"u\", \"parameters\": \x7b\x7d\x7d"),
     ("and ", "not json at all"),
     ("then ", "\x7b\"name\": \"v\", \"parameters\": \x7b\x7d\x7d")] " done"
    (by decide) (by decide) (by decide) (by decide)
  exact ⟨h.1.trans rfl, h.2.trans rfl⟩

/-- C8 counterexample: a fenced region parsing to an object with the two
required fields *plus an extra key* is kept by the extractor, although
the claim requires it to be discarded (the code checks only that `name`
and `parameters` are present; it never checks types or extra keys). -/
theorem c8_counterexample_extra_keys_kept :
    extractToolCalls extraKeysText
      = [.obj [("name", .str "x"), ("parameters", .obj []), ("extra", .bool true)]] :=
  rfl

/-- C8 (corrected): a parsed fenced region is kept as a tool-call request
if and only if it is an object *containing* the keys `name` and
`parameters` — of any type, extra keys permitted; everything else is
discarded. -/
theorem c8_amended_keep_rule (text : String) (v : JValue) :
    v ∈ extractToolCalls text ↔
      ∃ r ∈ extractRegions text.toList,
        parseJsonL r = some v ∧ isToolCallDict v = true := by
  rw [extractToolCalls_eq_filterMap, List.mem_filterMap]
  constructor
  · rintro ⟨r, hr, hk⟩
    refine ⟨r, hr, ?_⟩
    unfold keepBlock at hk
    cases hp : parseJsonL r with
    | none => rw [hp] at hk; exact absurd hk (by simp)
    | some w =>
      rw [hp] at hk
      by_cases hd : isToolCallDict w = true
      · simp only [hd, if_true] at hk
        obtain rfl : w = v := by injection hk
        exact ⟨rfl, hd⟩
      · simp [hd] at hk
  · rintro ⟨r, hr, hp, hd⟩
    exact ⟨r, hr, by simp [keepBlock, hp, hd]⟩

theorem c8_witness :
    (.obj [("name", .str "x"), ("parameters", .obj []), ("extra", .bool true)] : JValue)
      ∈ extractToolCalls extraKeysText := by
  rw [c8_amended_keep_rule]
  exact ⟨"\x7b\"name\": \"x\", \"parameters\": \x7b\x7d, \"extra\": true\x7d".toList,
    by decide, rfl, rfl⟩

/-- C6: the result projection is idempotent and total
(`project(project(x)) = project(x)` for every list of records), every
output entry carries the six required fields (null-filled when the input
record omits them), and every key outside the fixed `DocumentSummary`
field set is dropped. -/
theorem c6_projection_idempotent_total (x : List (List (String × JValue))) :
    simplifyDocs (simplifyDocs x) = simplifyDocs x
    ∧ ∀ d : List (String × JValue),
        (∀ k ∈ requiredKeys, hasKeyJ (simplifyDoc d) k = true)
        ∧ (∀ k ∈ requiredKeys, hasKeyJ d k = false → jget (simplifyDoc d) k = .null)
        ∧ (∀ k : String, hasKeyJ (simplifyDoc d) k = true → k ∈ summaryKeys) := by
  constructor
  · rw [simplifyDocs, simplifyDocs, List.map_map]
    exact List.map_congr_left (fun d _ => simplifyDoc_idem d)
  · intro d
    exact ⟨simplifyDoc_required d, simplifyDoc_nullFill d, fun k => simplifyDoc_keys_sub d k⟩

theorem c6_witness :
    simplifyDocs (simplifyDocs [[("junk", JValue.str "z")]])
      = simplifyDocs [[("junk", JValue.str "z")]]
    ∧ hasKeyJ (simplifyDoc [("junk", JValue.str "z")]) "id" = true
    ∧ jget (simplifyDoc [("junk", JValue.str "z")]) "id" = .null
    ∧ ("title" : String) ∈ summaryKeys :=
  ⟨(c6_projection_idempotent_total [[("junk", JValue.str "z")]]).1,
   ((c6_projection_idempotent_total [[("junk", JValue.str "z")]]).2
      [("junk", JValue.str "z")]).1 "id" (by decide),
   ((c6_projection_idempotent_total [[("junk", JValue.str "z")]]).2
      [("junk", JValue.str "z")]).2.1 "id" (by decide) (by decide),
   ((c6_projection_idempotent_total [[("junk", JValue.str "z")]]).2
      [("junk", JValue.str "z")]).2.2 "title" (by decide)⟩

/-- C9: `search_recent_executive_orders(days, limit)` delegates to the
document search with `presidential_doc_type = "Executive Order"`,
`date_from = now − days` and that `limit`, and consequently every
returned document has a publication date `≥ now − days` and a
presidential document type matching the `LIKE "%Executive Order%"`
filter. -/
theorem c9_recent_eo_delegation_and_filter (now : Nat) (table : List DbDoc)
    (days limit : Nat) :
    search_recent_executive_orders now table days limit
      = search_documents table
          (QueryParams.mk none (some (now - days)) none none none none
            (some "Executive Order") none limit 0)
    ∧ ∀ d ∈ search_recent_executive_orders now table days limit,
        (∃ p, d.publication_date = some p ∧ now - days ≤ p)
        ∧ (∃ ty, d.presidential_document_type = some ty
            ∧ containsSub ty "Executive Order" = true) := by
  refine ⟨rfl, ?_⟩
  intro d hd
  unfold search_recent_executive_orders search_documents dbSearchDocuments at hd
  have hd2 := List.mem_of_mem_drop (List.mem_of_mem_take hd)
  rw [mem_sortByDateDesc] at hd2
  have hmatch := (List.mem_filter.mp hd2).2
  simp [rowMatches] at hmatch
  obtain ⟨hdate, hpdt⟩ := hmatch
  constructor
  · cases hp : d.publication_date with
    | none => rw [hp] at hdate; simp at hdate
    | some p =>
      rw [hp] at hdate
      exact ⟨p, rfl, by simpa using hdate⟩
  · cases hq : d.presidential_document_type with
    | none => rw [hq] at hpdt; simp at hpdt
    | some ty =>
      rw [hq] at hpdt
      exact ⟨ty, rfl, by simpa using hpdt⟩

theorem c9_witness :
    (∃ p, eoDoc.publication_date = some p ∧ 130 - 30 ≤ p)
    ∧ (∃ ty, eoDoc.presidential_document_type = some ty
        ∧ containsSub ty "Executive Order" = true) :=
  (c9_recent_eo_delegation_and_filter 130 [eoDoc] 30 10).2 eoDoc (by decide)

/-- C10: the projection guard of the dispatcher — the handler result is
projected if and only if it is a non-empty list whose first element is a
dict containing `document_number`; an empty list, a non-empty list whose
first element is not such a dict (even when later elements are
document-like), and every non-list value pass through unmodified. -/
theorem c10_projection_guard (r : JValue) :
    (∀ x xs, r = .arr (x :: xs) → ∀ kvs, x = .obj kvs →
        hasKeyJ kvs "document_number" = true →
        simplifyResult r = ((x :: xs).mapM simplifyElem).map JValue.arr)
    ∧ (∀ x xs, r = .arr (x :: xs) →
        (∀ kvs, x = .obj kvs → hasKeyJ kvs "document_number" = false) →
        simplifyResult r = .ok r)
    ∧ (r = .arr [] → simplifyResult r = .ok r)
    ∧ ((∀ xs, r ≠ .arr xs) → simplifyResult r = .ok r) := by
  refine ⟨?_, ?_, ?_, ?_⟩
  · rintro x xs rfl kvs rfl hk
    simp [simplifyResult, hk]
  · rintro x xs rfl hjk
    cases x with
    | obj kvs => simp [simplifyResult, hjk kvs rfl]
    | null => rfl
    | bool b => rfl
    | num q => rfl
    | str s => rfl
    | arr ys => rfl
  · rintro rfl
    rfl
  · intro h
    cases r with
    | arr xs => exact absurd rfl (h xs)
    | null => rfl
    | bool b => rfl
    | num q => rfl
    | str s => rfl
    | obj kvs => rfl

theorem c10_witness :
    simplifyResult (.arr [.obj [("x", JValue.null)],
        .obj [("document_number", JValue.str "d1")]])
      = .ok (.arr [.obj [("x", JValue.null)],
          .obj [("document_number", JValue.str "d1")]])
    ∧ simplifyResult (.arr [])  = .ok (.arr [])
    ∧ simplifyResult (.arr [.obj [("document_number", JValue.str "d1")]])
        = (([(.obj [("document_number", JValue.str "d1")] : JValue)].mapM
            simplifyElem).map JValue.arr) :=
  ⟨(c10_projection_guard _).2.1 _ _ rfl
      (fun kvs hk => by cases hk; rfl),
   (c10_projection_guard _).2.2.1 rfl,
   (c10_projection_guard _).1 _ _ rfl _ rfl rfl⟩
